import Mathlib

/-!
Verification of the selective-cleanup subsystem of the dotfiles TUI
(`tui/main.py`, `tui/ops.py`).

The embedding models
* absolute filesystem paths as lists of components (`AbsPath`);
* the on-disk state as a finite association list from paths to entries
  (`FS`), where a symlink entry records the chain target and a `faults`
  set marks paths whose mutation raises an OS-level error (permissions
  and the like) — this is what makes the source's `except` branches
  reachable;
* `inside_home_guard`, `enumerate_stow_targets_for_pkgs`,
  `confirm_remove_dialog`, `selective_cleanup_worker`,
  `discover_themes` (from `tui/main.py`) and `package_plan`
  (from `tui/ops.py`) as executable Lean functions mirroring the
  Python line by line.

Python's `sorted` on path strings is modelled by an insertion sort over
the code-point sequence of the rendered path (`pathCodes`), which agrees
with byte-wise string comparison for the `/`-joined absolute paths the
program builds.
-/

namespace Dotfiles

/-- An absolute filesystem path, as its list of components
(`/home/u/.vimrc` is `["home", "u", ".vimrc"]`). -/
abbrev AbsPath := List String

/-- Code points of a component, used to mirror Python string comparison. -/
def chCodes (s : String) : List Nat := s.data.map Char.toNat

/-- Code points of the rendered absolute path string `"/" ++ "/".join p`:
each component is preceded by the code of `/` (47). -/
def pathCodes (p : AbsPath) : List Nat :=
  p.foldr (fun c acc => 47 :: (chCodes c ++ acc)) []

/-- Lexicographic `≤` on code-point lists: Python string `<=`. -/
def lexLe : List Nat → List Nat → Bool
  | [], _ => true
  | _ :: _, [] => false
  | a :: as, b :: bs => if a < b then true else if b < a then false else lexLe as bs

/-- Stable insertion step for `sortBy`: `a` goes in front of the first
element `b` with `le a b`. -/
def insertBy (le : α → α → Bool) (a : α) : List α → List α
  | [] => [a]
  | b :: bs => if le a b then a :: b :: bs else b :: insertBy le a bs

/-- Stable insertion sort, modelling Python's `sorted` with the given
"may come first" relation. -/
def sortBy (le : α → α → Bool) : List α → List α
  | [] => []
  | a :: as => insertBy le a (sortBy le as)

/-- Keep the first occurrence of each element, drop later duplicates,
tracking what has been kept in `seen`: the effect of Python's `set(...)`
on order-insensitive consumers, and literally the `seen` loop in
`package_plan`. -/
def dedupAcc [BEq α] (seen : List α) : List α → List α
  | [] => []
  | a :: as => if seen.contains a then dedupAcc seen as else a :: dedupAcc (a :: seen) as

/-- First-occurrence deduplication of a whole list. -/
def dedupKeepFirst [BEq α] (l : List α) : List α := dedupAcc [] l

/-- Python `sorted(strings)` for rendered absolute paths. -/
def sortPaths (l : List AbsPath) : List AbsPath :=
  sortBy (fun a b => lexLe (pathCodes a) (pathCodes b)) l

/-- `inside_home_guard` (tui/main.py): true iff the path is lexically
under `$HOME` — component-wise prefix of the already-absolute path; the
guard never follows symlinks.  (The Python `except` fallback to `False`
concerns OS-level `expanduser` failures, which the path model has no
counterpart for.) -/
def inside_home_guard (home p : AbsPath) : Bool := home.isPrefixOf p

/-- Truthiness test for the `DOTFILES_REMOVE_*` environment toggles. -/
def truthyEnv (s : String) : Bool := s ∈ ["1", "true", "yes", "on"]

/-! ## Filesystem model -/

/-- One directory entry: a regular file, a symlink (recording the path it
points to), or a directory. -/
inductive Entry where
  | file
  | symlink (target : AbsPath)
  | dir
deriving DecidableEq

/-- The filesystem: entries keyed by absolute path, plus the set of paths
whose mutation raises an OS error (models EPERM and the like, which the
source catches per item). -/
structure FS where
  entries : List (AbsPath × Entry)
  faults : List AbsPath
deriving DecidableEq

/-- Entry at a path, not following a final-component symlink
(`lstat` view). -/
def FS.lookup (fs : FS) (p : AbsPath) : Option Entry :=
  (fs.entries.find? (fun e => e.1 == p)).map (fun e => e.2)

/-- Python `Path.is_symlink()`. -/
def FS.isSymlink (fs : FS) (p : AbsPath) : Bool :=
  match fs.lookup p with
  | some (.symlink _) => true
  | _ => false

/-- Follow symlink chains with fuel, returning the final path and entry. -/
def FS.resolveEntry (fs : FS) : Nat → AbsPath → Option (AbsPath × Entry)
  | 0, _ => none
  | fuel + 1, p =>
      match fs.lookup p with
      | some (.symlink t) => fs.resolveEntry fuel t
      | some e => some (p, e)
      | none => none

/-- Python `Path.exists()`: follows symlinks; a broken link does not exist. -/
def FS.existsFollow (fs : FS) (p : AbsPath) : Bool :=
  (fs.resolveEntry (fs.entries.length + 1) p).isSome

/-- Python `Path.is_file()`: follows symlinks. -/
def FS.isFileFollow (fs : FS) (p : AbsPath) : Bool :=
  match fs.resolveEntry (fs.entries.length + 1) p with
  | some (_, .file) => true
  | _ => false

/-- Python `Path.resolve()` (non-strict): the fully resolved path, or the
path itself where resolution finds nothing. -/
def FS.resolvePath (fs : FS) (p : AbsPath) : AbsPath :=
  match fs.resolveEntry (fs.entries.length + 1) p with
  | some (q, _) => q
  | none => p

/-- Whether mutating `p` raises an OS error in this model. -/
def FS.faulted (fs : FS) (p : AbsPath) : Bool := fs.faults.contains p

/-- Drop the entry at exactly `p`. -/
def FS.removeEntry (fs : FS) (p : AbsPath) : FS :=
  { fs with entries := fs.entries.filter (fun e => !(e.1 == p)) }

/-- Drop `p` and everything below it. -/
def FS.removeTree (fs : FS) (p : AbsPath) : FS :=
  { fs with entries := fs.entries.filter (fun e => !(p.isPrefixOf e.1)) }

/-- A directory is non-empty when some entry lies strictly below it. -/
def FS.nonEmptyDir (fs : FS) (p : AbsPath) : Bool :=
  fs.entries.any (fun e => p.isPrefixOf e.1 && decide (p.length < e.1.length))

/-- OS failure classes the worker distinguishes: `ENOTEMPTY` on `rmdir`
versus everything else. -/
inductive OSErr where
  | notEmpty
  | other
deriving DecidableEq

/-- `Path.unlink(missing_ok=True)`. -/
def FS.unlink (fs : FS) (p : AbsPath) : Except OSErr FS :=
  if fs.faulted p then .error .other else .ok (fs.removeEntry p)

/-- `os.rmdir`: fails with `ENOTEMPTY` on a non-empty directory. -/
def FS.rmdir (fs : FS) (p : AbsPath) : Except OSErr FS :=
  if fs.faulted p then .error .other
  else if fs.nonEmptyDir p then .error .notEmpty
  else .ok (fs.removeEntry p)

/-- `shutil.rmtree`. -/
def FS.rmtree (fs : FS) (p : AbsPath) : Except OSErr FS :=
  if fs.faulted p then .error .other else .ok (fs.removeTree p)

/-! ## Selective cleanup worker (tui/main.py, `selective_cleanup_worker`) -/

/-- Log levels of the worker's `logger(level, msg)` calls. -/
inductive LogLevel where
  | info
  | success
  | warn
  | error
deriving DecidableEq

/-- One constructor per `logger(...)` call site in
`selective_cleanup_worker`, in source order. -/
inductive LogKind where
  | plannedHeader
  | skipOutside
  | skipMissing
  | planUnlink
  | removedFile
  | failUnlink
  | skipDirOutside
  | skipDirMissing
  | planUnlinkDirTarget
  | removedFileDirTarget
  | failUnlinkDirTarget
  | planDir
  | removedSymlinkDir
  | refuseRmtreeOutside
  | removedDirRecursive
  | failRmtree
  | removedDirEmpty
  | skipDirNotEmpty
  | failRmdir
deriving DecidableEq

/-- One emitted log line. -/
structure LogE where
  level : LogLevel
  kind : LogKind
  path : AbsPath
deriving DecidableEq

/-- The worker's running state: filesystem, log lines emitted so far
(most recent first) and the four counters. -/
structure CleanupState where
  fs : FS
  log : List LogE
  files_removed : Nat
  dirs_removed : Nat
  skipped : Nat
  errors : Nat
deriving DecidableEq

/-- The summary dict the worker returns. -/
structure CleanupSummary where
  files_removed : Nat
  dirs_removed : Nat
  skipped : Nat
  errors : Nat
  dry_run : Bool
deriving DecidableEq

/-- Body of the `for f in files` loop of `selective_cleanup_worker`. -/
def procFile (home : AbsPath) (dry : Bool) (st : CleanupState) (f : AbsPath) : CleanupState :=
  if !(inside_home_guard home f) then
    { st with log := ⟨.warn, .skipOutside, f⟩ :: st.log, skipped := st.skipped + 1 }
  else if !(st.fs.existsFollow f) && !(st.fs.isSymlink f) then
    { st with log := ⟨.info, .skipMissing, f⟩ :: st.log, skipped := st.skipped + 1 }
  else if dry then
    { st with log := ⟨.info, .planUnlink, f⟩ :: st.log }
  else
    match st.fs.unlink f with
    | .ok fs' =>
        { st with fs := fs', log := ⟨.success, .removedFile, f⟩ :: st.log,
                  files_removed := st.files_removed + 1 }
    | .error _ =>
        { st with log := ⟨.error, .failUnlink, f⟩ :: st.log, errors := st.errors + 1 }

/-- Body of the `for d in dirs_sorted` loop of `selective_cleanup_worker`. -/
def procDir (home : AbsPath) (dry force : Bool) (st : CleanupState) (d : AbsPath) : CleanupState :=
  if !(inside_home_guard home d) then
    { st with log := ⟨.warn, .skipDirOutside, d⟩ :: st.log, skipped := st.skipped + 1 }
  else if !(st.fs.existsFollow d) && !(st.fs.isSymlink d) then
    { st with log := ⟨.info, .skipDirMissing, d⟩ :: st.log, skipped := st.skipped + 1 }
  else if st.fs.isFileFollow d || st.fs.isSymlink d then
    -- "If target is a file or symlink, treat like file unlink attempt"
    if dry then
      { st with log := ⟨.info, .planUnlinkDirTarget, d⟩ :: st.log }
    else
      match st.fs.unlink d with
      | .ok fs' =>
          { st with fs := fs', log := ⟨.success, .removedFileDirTarget, d⟩ :: st.log,
                    files_removed := st.files_removed + 1 }
      | .error _ =>
          { st with log := ⟨.error, .failUnlinkDirTarget, d⟩ :: st.log, errors := st.errors + 1 }
  else if dry then
    { st with log := ⟨.info, .planDir, d⟩ :: st.log }
  else if force then
    -- the source re-tests `p.is_symlink()` here (TOCTOU defence); in the
    -- sequential model the earlier branch already caught symlinks
    if st.fs.isSymlink d then
      match st.fs.unlink d with
      | .ok fs' =>
          { st with fs := fs', log := ⟨.success, .removedSymlinkDir, d⟩ :: st.log,
                    files_removed := st.files_removed + 1 }
      | .error _ =>
          { st with log := ⟨.error, .failRmtree, d⟩ :: st.log, errors := st.errors + 1 }
    else if !(inside_home_guard home (st.fs.resolvePath d)) then
      { st with log := ⟨.error, .refuseRmtreeOutside, d⟩ :: st.log, errors := st.errors + 1 }
    else
      match st.fs.rmtree d with
      | .ok fs' =>
          { st with fs := fs', log := ⟨.success, .removedDirRecursive, d⟩ :: st.log,
                    dirs_removed := st.dirs_removed + 1 }
      | .error _ =>
          { st with log := ⟨.error, .failRmtree, d⟩ :: st.log, errors := st.errors + 1 }
  else
    match st.fs.rmdir d with
    | .ok fs' =>
        { st with fs := fs', log := ⟨.success, .removedDirEmpty, d⟩ :: st.log,
                  dirs_removed := st.dirs_removed + 1 }
    | .error .notEmpty =>
        { st with log := ⟨.info, .skipDirNotEmpty, d⟩ :: st.log, skipped := st.skipped + 1 }
    | .error .other =>
        { st with log := ⟨.error, .failRmdir, d⟩ :: st.log, errors := st.errors + 1 }

/-- `sorted(dirs, key=lambda s: s.count(os.sep), reverse=True)`: for the
normalized absolute paths the worker receives, the separator count of the
rendered string is the component count, so the key is `List.length`. -/
def dirs_sorted (dirs : List AbsPath) : List AbsPath :=
  sortBy (fun a b => decide (b.length ≤ a.length)) dirs

/-- `selective_cleanup_worker` (tui/main.py, lines 199–327): files first,
then directories deepest-first; `dry`/`force` are the parsed
`DOTFILES_REMOVE_DRY` / `DOTFILES_REMOVE_FORCE` toggles. -/
def selective_cleanup_worker (home : AbsPath) (files dirs : List AbsPath)
    (fs : FS) (dry force : Bool) : CleanupState :=
  let st0 : CleanupState :=
    { fs := fs, log := [⟨.info, .plannedHeader, []⟩],
      files_removed := 0, dirs_removed := 0, skipped := 0, errors := 0 }
  let st1 := files.foldl (procFile home dry) st0
  (dirs_sorted dirs).foldl (procDir home dry force) st1

/-- The summary dict built at the end of `selective_cleanup_worker`. -/
def cleanupSummary (home : AbsPath) (files dirs : List AbsPath)
    (fs : FS) (dry force : Bool) : CleanupSummary :=
  let st := selective_cleanup_worker home files dirs fs dry force
  { files_removed := st.files_removed, dirs_removed := st.dirs_removed,
    skipped := st.skipped, errors := st.errors, dry_run := dry }

/-! ## Target enumeration (tui/main.py, `enumerate_stow_targets_for_pkgs`) -/

/-- A node of a stow package tree as `os.walk` sees it: a regular file
(or symlink listed among the `fnames` — both become file targets), a real
directory, or a symlink that stats as a directory (listed among `dnames`
but never recursed into, since `followlinks=False`). -/
inductive SrcNode where
  | file (name : String)
  | dir (name : String) (children : List SrcNode)
  | linkDir (name : String)

/-- The walk over one package tree: returns `(file targets, dir targets)`
as home-absolute paths, applying `inside_home_guard` before every
insertion and pruning `.git` directories, mirroring lines 80–103. -/
def walkNodes (home rel : AbsPath) : List SrcNode → (List AbsPath × List AbsPath)
  | [] => ([], [])
  | .file n :: rest =>
      let t := home ++ rel ++ [n]
      let r := walkNodes home rel rest
      ((if inside_home_guard home t then [t] else []) ++ r.1, r.2)
  | .linkDir n :: rest =>
      let t := home ++ rel ++ [n]
      let r := walkNodes home rel rest
      (r.1, (if n = ".git" then [] else if inside_home_guard home t then [t] else []) ++ r.2)
  | .dir n ch :: rest =>
      if n = ".git" then walkNodes home rel rest
      else
        let t := home ++ rel ++ [n]
        let r1 := walkNodes home (rel ++ [n]) ch
        let r2 := walkNodes home rel rest
        (r1.1 ++ r2.1, (if inside_home_guard home t then [t] else []) ++ r1.2 ++ r2.2)

/-- Python `sorted` over plain strings (package names). -/
def sortStrings (l : List String) : List String :=
  sortBy (fun a b => lexLe (chCodes a) (chCodes b)) l

/-- `enumerate_stow_targets_for_pkgs` (tui/main.py, lines 67–109): walk
`stow/<pkg>` for each named package that exists, collect guarded
home-absolute file and directory targets, then de-duplicate and sort
both collections.  `stow` is the on-disk `stow/` tree: package name to
the package root's children. -/
def collectPkg (home : AbsPath) (stow : List (String × List SrcNode))
    (acc : List AbsPath × List AbsPath) (pkg : String) : List AbsPath × List AbsPath :=
  match stow.find? (fun e => e.1 == pkg) with
  | none => acc
  | some e =>
      let r := walkNodes home [] e.2
      (acc.1 ++ r.1, acc.2 ++ r.2)

def enumerate_stow_targets_for_pkgs (home : AbsPath)
    (stow : List (String × List SrcNode)) (pkgs : List String) :
    (List AbsPath × List AbsPath) :=
  let collected := (sortStrings (dedupKeepFirst pkgs)).foldl (collectPkg home stow) ([], [])
  (sortPaths (dedupKeepFirst collected.1), sortPaths (dedupKeepFirst collected.2))

/-! ## Confirmation dialog (tui/main.py, `confirm_remove_dialog`) -/

/-- The key events the dialog's input loop distinguishes. -/
inductive Key where
  | esc
  | enter
  | backspace
  | digit (d : Fin 10)
  | other
deriving DecidableEq

/-- Value of the typed digit buffer, as Python `int` parses it. -/
def digitsVal (typed : List (Fin 10)) : Nat :=
  typed.foldl (fun a d => 10 * a + d.val) 0

/-- The input loop of `confirm_remove_dialog` (lines 174–192), run over a
list of key events with the current digit buffer `typed`: `some b` is the
dialog returning `b`, `none` means the events ran out with the dialog
still open.  The drawing code around the loop touches only the screen,
never the filesystem. -/
def confirm_remove_dialog (total : Nat) (typed : List (Fin 10)) :
    List Key → Option Bool
  | [] => none
  | .esc :: _ => some false
  | .enter :: _ => some (decide (typed ≠ []) && (digitsVal typed == total))
  | .backspace :: ks => confirm_remove_dialog total typed.dropLast ks
  | .digit d :: ks =>
      confirm_remove_dialog total (if typed.length < 10 then typed ++ [d] else typed) ks
  | .other :: ks => confirm_remove_dialog total typed ks

/-- Modelled from the spec side for comparison: what the operator
*submitted* — `some none` is an explicit cancellation (Escape),
`some (some t)` a buffer `t` submitted with Enter, `none` no submission
yet.  Buffer evolution (backspace, the ten-digit cap) matches the
dialog's. -/
def submission (typed : List (Fin 10)) : List Key → Option (Option (List (Fin 10)))
  | [] => none
  | .esc :: _ => some none
  | .enter :: _ => some (some typed)
  | .backspace :: ks => submission typed.dropLast ks
  | .digit d :: ks => submission (if typed.length < 10 then typed ++ [d] else typed) ks
  | .other :: ks => submission typed ks

/-- Modelled from the spec: a submission confirms exactly when it parses
as an integer equal to the total count; cancellation never confirms. -/
def acceptsSubmission (total : Nat) : Option (List (Fin 10)) → Bool
  | none => false
  | some t => decide (t ≠ []) && (digitsVal t == total)

/-! ## Theme discovery (tui/main.py, `discover_themes`) -/

/-- A directory entry of a theme source directory: a subdirectory, or a
file split as stem and suffix (`entry.stem`, `entry.suffix`). -/
inductive DirEnt where
  | dir (name : String)
  | file (stem suffix : String)

/-- `entry.name`. -/
def DirEnt.entName : DirEnt → String
  | .dir n => n
  | .file s e => s ++ e

/-- One theme source directory: its absolute path and its entries. -/
structure ThemeSource where
  path : AbsPath
  entries : List DirEnt

/-- ASCII lowering of a code point, modelling `str.lower()` on the ASCII
names the sort key sees. -/
def asciiLowerCode (n : Nat) : Nat :=
  if 65 ≤ n ∧ n ≤ 90 then n + 32 else n

/-- Sort key `lambda p: p.name.lower()` of the `iterdir` listing. -/
def lowerCodes (s : String) : List Nat := (chCodes s).map asciiLowerCode

/-- The accepted top-level file extensions (lowered suffix). -/
def themeExts : List String := [".json", ".toml", ".ini", ".css"]

/-- ASCII lowering of a whole string. -/
def asciiLower (s : String) : String :=
  String.mk (s.data.map (fun c => if 65 ≤ c.toNat ∧ c.toNat ≤ 90 then Char.ofNat (c.toNat + 32) else c))

/-- The theme name an entry contributes, if any (lines 379–387):
directories under their name, files with an accepted suffix under their
stem; `.git` and falsy names are skipped. -/
def themeNameOf : DirEnt → Option String
  | .dir n => if n = ".git" then none else if n = "" then none else some n
  | .file s e =>
      if s ++ e = ".git" then none
      else if (themeExts.contains (asciiLower e) : Bool) then
        if s = "" then none else some s
      else none

/-- `sorted(src_dir.iterdir(), key=lambda p: p.name.lower())`. -/
def sortedEntries (src : ThemeSource) : List DirEnt :=
  sortBy (fun a b => lexLe (lowerCodes a.entName) (lowerCodes b.entName)) src.entries

/-- Body of the `for entry in sorted(...)` loop of `discover_themes`:
claim `name` only when no earlier entry claimed it. -/
def addThemeEntry (srcPath : AbsPath) (result : List (String × AbsPath)) (entry : DirEnt) :
    List (String × AbsPath) :=
  match themeNameOf entry with
  | none => result
  | some name =>
      if result.any (fun e => e.1 == name) then result
      else result ++ [(name, srcPath ++ [entry.entName])]

/-- Processing of one source directory of `discover_themes`. -/
def addThemeSource (result : List (String × AbsPath)) (src : ThemeSource) :
    List (String × AbsPath) :=
  (sortedEntries src).foldl (addThemeEntry src.path) result

/-- `discover_themes` (tui/main.py, lines 368–396): fold the prioritized
sources, iterating each directory's entries sorted by lowered name, and
claim a name only if no earlier entry claimed it. -/
def discover_themes (sources : List ThemeSource) : List (String × AbsPath) :=
  sources.foldl addThemeSource []

/-- The map lookup `result[name]` on the discovery result. -/
def themeLookup (result : List (String × AbsPath)) (name : String) : Option AbsPath :=
  (result.find? (fun e => e.1 == name)).map (fun e => e.2)

/-- Modelled from the spec: the entry a single source directory offers
under `name` — the first of its (sorted) entries that yields that theme
name, resolved against the source path. -/
def offersTheme (name : String) (src : ThemeSource) : Option AbsPath :=
  ((sortedEntries src).find? (fun e => themeNameOf e == some name)).map
    (fun e => src.path ++ [e.entName])

/-! ## Package plan (tui/ops.py, `package_plan`) -/

/-- The `packages` section of `config.yaml` as `cfg.get("packages", [])`
can produce it: a flat list, the legacy `common`/`arch` dict, or any
other value. -/
inductive PkgSection where
  | list (xs : List String)
  | dict (common arch : List String)
  | other

/-- `package_plan` (tui/ops.py, lines 117–142). -/
def package_plan (sec : PkgSection) : List String :=
  match sec with
  | .list xs => xs
  | .dict common arch => dedupKeepFirst (common ++ arch)
  | .other => []

/-! ## Lemmas about the sort model -/

theorem mem_insertBy {le : α → α → Bool} {a x : α} {l : List α} :
    x ∈ insertBy le a l ↔ x = a ∨ x ∈ l := by
  induction l with
  | nil => simp [insertBy]
  | cons b bs ih =>
      by_cases h : le a b = true
      · simp [insertBy, h]
      · simp only [insertBy, h, Bool.false_eq_true, if_false, List.mem_cons, ih]
        tauto

theorem mem_sortBy {le : α → α → Bool} {x : α} {l : List α} :
    x ∈ sortBy le l ↔ x ∈ l := by
  induction l with
  | nil => simp [sortBy]
  | cons b bs ih => simp [sortBy, mem_insertBy, ih]

theorem countP_insertBy {le : α → α → Bool} (p : α → Bool) (a : α) (l : List α) :
    (insertBy le a l).countP p = l.countP p + (if p a then 1 else 0) := by
  induction l with
  | nil => simp [insertBy, List.countP_cons]
  | cons b bs ih =>
      by_cases h : le a b = true
      · cases hpa : p a <;> cases hpb : p b <;>
          simp [insertBy, h, List.countP_cons, hpa, hpb]
      · cases hpa : p a <;> cases hpb : p b <;>
          simp [insertBy, h, List.countP_cons, hpa, hpb, ih]

theorem countP_sortBy {le : α → α → Bool} (p : α → Bool) (l : List α) :
    (sortBy le l).countP p = l.countP p := by
  induction l with
  | nil => rfl
  | cons b bs ih => simp [sortBy, countP_insertBy, ih, List.countP_cons]

theorem length_sortBy {le : α → α → Bool} (l : List α) :
    (sortBy le l).length = l.length := by
  have h1 := @countP_sortBy _ le (fun _ => true) l
  simpa [List.countP_true] using h1

theorem pairwise_insertBy {le : α → α → Bool}
    (htot : ∀ x y, le x y = false → le y x = true)
    (htrans : ∀ x y z, le x y = true → le y z = true → le x z = true)
    (a : α) {l : List α} (h : l.Pairwise (fun x y => le x y = true)) :
    (insertBy le a l).Pairwise (fun x y => le x y = true) := by
  induction l with
  | nil => simp [insertBy]
  | cons b bs ih =>
      rw [List.pairwise_cons] at h
      obtain ⟨hb, hbs⟩ := h
      by_cases hab : le a b = true
      · simp only [insertBy, hab, if_true]
        rw [List.pairwise_cons]
        refine ⟨?_, ?_⟩
        · intro x hx
          rcases List.mem_cons.mp hx with rfl | hx
          · exact hab
          · exact htrans a b x hab (hb x hx)
        · rw [List.pairwise_cons]
          exact ⟨hb, hbs⟩
      · simp only [insertBy, hab, Bool.false_eq_true, if_false]
        rw [List.pairwise_cons]
        refine ⟨?_, ih hbs⟩
        intro x hx
        rcases mem_insertBy.mp hx with rfl | hx
        · exact htot x b (by simpa using hab)
        · exact hb x hx

theorem pairwise_sortBy {le : α → α → Bool}
    (htot : ∀ x y, le x y = false → le y x = true)
    (htrans : ∀ x y z, le x y = true → le y z = true → le x z = true)
    (l : List α) :
    (sortBy le l).Pairwise (fun x y => le x y = true) := by
  induction l with
  | nil => simp [sortBy]
  | cons b bs ih => exact pairwise_insertBy htot htrans b ih

/-! ## Lemmas about first-occurrence deduplication -/

theorem dedupAcc_cons_mem [BEq α] {seen : List α} {a : α} (h : seen.contains a = true)
    (as : List α) : dedupAcc seen (a :: as) = dedupAcc seen as := by
  simp [dedupAcc, h]

theorem dedupAcc_cons_not_mem [BEq α] {seen : List α} {a : α} (h : seen.contains a = false)
    (as : List α) : dedupAcc seen (a :: as) = a :: dedupAcc (a :: seen) as := by
  simp [dedupAcc, h]

theorem mem_dedupAcc [BEq α] [LawfulBEq α] {x : α} :
    ∀ (seen l : List α), x ∈ dedupAcc seen l ↔ x ∈ l ∧ x ∉ seen := by
  intro seen l
  induction l generalizing seen with
  | nil => simp [dedupAcc]
  | cons a as ih =>
      rcases hc : seen.contains a with _ | _
      · have h : a ∉ seen := fun hm => by
          have h3 : seen.contains a = true := List.elem_eq_true_of_mem hm
          rw [h3] at hc
          cases hc
        rw [dedupAcc_cons_not_mem hc]
        simp only [List.mem_cons, ih]
        constructor
        · rintro (rfl | ⟨hx, hns⟩)
          · exact ⟨Or.inl rfl, h⟩
          · exact ⟨Or.inr hx, fun hseen => hns (Or.inr hseen)⟩
        · rintro ⟨hmem, hns⟩
          by_cases hxa : x = a
          · exact Or.inl hxa
          · rcases hmem with rfl | hx
            · exact absurd rfl hxa
            · refine Or.inr ⟨hx, fun hm => ?_⟩
              rcases hm with h1 | h1
              · exact hxa h1
              · exact hns h1
      · have h : a ∈ seen := List.mem_of_elem_eq_true hc
        rw [dedupAcc_cons_mem hc, ih]
        simp only [List.mem_cons]
        constructor
        · rintro ⟨hx, hns⟩
          exact ⟨Or.inr hx, hns⟩
        · rintro ⟨rfl | hx, hns⟩
          · exact absurd h hns
          · exact ⟨hx, hns⟩

theorem nodup_dedupAcc [BEq α] [LawfulBEq α] :
    ∀ (seen l : List α), (dedupAcc seen l).Nodup := by
  intro seen l
  induction l generalizing seen with
  | nil => simp [dedupAcc]
  | cons a as ih =>
      rcases hc : seen.contains a with _ | _
      · rw [dedupAcc_cons_not_mem hc, List.nodup_cons]
        refine ⟨?_, ih (a :: seen)⟩
        intro hmem
        exact (mem_dedupAcc _ _ |>.mp hmem).2 (List.mem_cons_self a seen)
      · rw [dedupAcc_cons_mem hc]
        exact ih seen

theorem dedupAcc_append [BEq α] :
    ∀ (l₁ : List α) (seen l₂ : List α), ∃ seen',
      dedupAcc seen (l₁ ++ l₂) = dedupAcc seen l₁ ++ dedupAcc seen' l₂ := by
  intro l₁
  induction l₁ with
  | nil => exact fun seen l₂ => ⟨seen, rfl⟩
  | cons a as ih =>
      intro seen l₂
      rcases hc : seen.contains a with _ | _
      · obtain ⟨seen', hs⟩ := ih (a :: seen) l₂
        refine ⟨seen', ?_⟩
        rw [dedupAcc_cons_not_mem hc, List.cons_append, dedupAcc_cons_not_mem hc, hs,
          List.cons_append]
      · obtain ⟨seen', hs⟩ := ih seen l₂
        refine ⟨seen', ?_⟩
        rw [dedupAcc_cons_mem hc, List.cons_append, dedupAcc_cons_mem hc, hs]

theorem mem_dedupKeepFirst [BEq α] [LawfulBEq α] {x : α} {l : List α} :
    x ∈ dedupKeepFirst l ↔ x ∈ l := by
  simp [dedupKeepFirst, mem_dedupAcc]

/-! ## Lemmas about the filesystem model -/

theorem find?_filter_self (l : List (AbsPath × Entry)) (p : AbsPath) :
    (l.filter (fun e => !(e.1 == p))).find? (fun e => e.1 == p) = none := by
  induction l with
  | nil => rfl
  | cons e es ih =>
      rcases h : (e.1 == p) with _ | _
      · simp [List.filter_cons, h, List.find?_cons, ih]
      · simp [List.filter_cons, h, ih]

theorem find?_filter_ne (l : List (AbsPath × Entry)) {p q : AbsPath} (hpq : q ≠ p) :
    (l.filter (fun e => !(e.1 == p))).find? (fun e => e.1 == q) =
      l.find? (fun e => e.1 == q) := by
  induction l with
  | nil => rfl
  | cons e es ih =>
      rcases hq : (e.1 == q) with _ | _
      · rcases hp : (e.1 == p) with _ | _
        · simpa [List.filter_cons, hp, List.find?_cons, hq] using ih
        · have : e.1 = p := by simpa using hp
          have : (e.1 == q) = false := by
            simp [this]
            exact fun hc => hpq hc.symm
          simpa [List.filter_cons, hp, List.find?_cons, this] using ih
      · have he : e.1 = q := by simpa using hq
        have hp : (e.1 == p) = false := by
          simp [he]
          exact hpq
        simp [List.filter_cons, hp, List.find?_cons, hq]

/-- Unlinking removes exactly the named entry. -/
theorem lookup_removeEntry_self (fs : FS) (p : AbsPath) :
    (fs.removeEntry p).lookup p = none := by
  simp [FS.lookup, FS.removeEntry, find?_filter_self]

/-- Unlinking leaves every other path untouched. -/
theorem lookup_removeEntry_ne (fs : FS) {p q : AbsPath} (h : q ≠ p) :
    (fs.removeEntry p).lookup q = fs.lookup q := by
  simp [FS.lookup, FS.removeEntry, find?_filter_ne _ h]

theorem existsFollow_lookup_dir {fs : FS} {d : AbsPath} (h : fs.lookup d = some .dir) :
    fs.existsFollow d = true := by
  simp [FS.existsFollow, FS.resolveEntry, h]

theorem isFileFollow_lookup_dir {fs : FS} {d : AbsPath} (h : fs.lookup d = some .dir) :
    fs.isFileFollow d = false := by
  simp [FS.isFileFollow, FS.resolveEntry, h]

theorem isSymlink_lookup_dir {fs : FS} {d : AbsPath} (h : fs.lookup d = some .dir) :
    fs.isSymlink d = false := by
  simp [FS.isSymlink, h]

theorem isSymlink_lookup_symlink {fs : FS} {d t : AbsPath}
    (h : fs.lookup d = some (.symlink t)) : fs.isSymlink d = true := by
  simp [FS.isSymlink, h]

theorem resolvePath_lookup_dir {fs : FS} {d : AbsPath} (h : fs.lookup d = some .dir) :
    fs.resolvePath d = d := by
  simp [FS.resolvePath, FS.resolveEntry, h]

/-- A worker run on an empty file list and a single directory target is
one pass of the directory-loop body over the initial state. -/
theorem worker_single_dir (home d : AbsPath) (fs : FS) (dry force : Bool) :
    selective_cleanup_worker home [] [d] fs dry force =
      procDir home dry force
        { fs := fs, log := [⟨.info, .plannedHeader, []⟩],
          files_removed := 0, dirs_removed := 0, skipped := 0, errors := 0 } d := rfl

/-! ## C2, C9: target enumeration -/

/-- Every path the walk collects — file or directory target — passed
`inside_home_guard` at insertion. -/
theorem walkNodes_guard (home : AbsPath) :
    ∀ (rel : AbsPath) (ns : List SrcNode) (p : AbsPath),
      p ∈ (walkNodes home rel ns).1 ∨ p ∈ (walkNodes home rel ns).2 →
      inside_home_guard home p = true := by
  intro rel ns
  induction rel, ns using walkNodes.induct home with
  | case1 rel =>
      intro p hp
      simp [walkNodes] at hp
  | case2 rel n rest ih =>
      intro p hp
      simp only [walkNodes, List.mem_append] at hp
      rcases hp with (hp | hp) | hp
      · split at hp
        · rcases List.mem_singleton.mp hp with rfl
          assumption
        · simp at hp
      · exact ih p (Or.inl hp)
      · exact ih p (Or.inr hp)
  | case3 rel n rest ih =>
      intro p hp
      simp only [walkNodes, List.mem_append] at hp
      rcases hp with hp | (hp | hp)
      · exact ih p (Or.inl hp)
      · split at hp
        · simp at hp
        · split at hp
          · rcases List.mem_singleton.mp hp with rfl
            assumption
          · simp at hp
      · exact ih p (Or.inr hp)
  | case4 rel ch rest ih =>
      intro p hp
      simp only [walkNodes, if_pos] at hp
      exact ih p hp
  | case5 rel n ch rest hgit ih1 ih2 =>
      intro p hp
      simp only [walkNodes, hgit, if_false, List.mem_append] at hp
      rcases hp with (hp | hp) | ((hp | hp) | hp)
      · exact ih1 p (Or.inl hp)
      · exact ih2 p (Or.inl hp)
      · split at hp
        · rcases List.mem_singleton.mp hp with rfl
          assumption
        · simp at hp
      · exact ih1 p (Or.inr hp)
      · exact ih2 p (Or.inr hp)

/-- The per-package collection fold preserves the guard invariant. -/
theorem collectPkg_fold_guard (home : AbsPath) (stow : List (String × List SrcNode)) :
    ∀ (names : List String) (acc : List AbsPath × List AbsPath),
      (∀ q, (q ∈ acc.1 ∨ q ∈ acc.2) → inside_home_guard home q = true) →
      ∀ p, (p ∈ (names.foldl (collectPkg home stow) acc).1 ∨
            p ∈ (names.foldl (collectPkg home stow) acc).2) →
        inside_home_guard home p = true := by
  intro names
  induction names with
  | nil => exact fun acc hinv p hp => hinv p hp
  | cons n ns ih =>
      intro acc hinv p hp
      refine ih (collectPkg home stow acc n) ?_ p hp
      intro q hq
      unfold collectPkg at hq
      rcases hfind : stow.find? (fun e => e.1 == n) with _ | e
      · rw [hfind] at hq
        exact hinv q hq
      · rw [hfind] at hq
        simp only [List.mem_append] at hq
        rcases hq with (hq | hq) | (hq | hq)
        · exact hinv q (Or.inl hq)
        · exact walkNodes_guard home [] e.2 q (Or.inl hq)
        · exact hinv q (Or.inr hq)
        · exact walkNodes_guard home [] e.2 q (Or.inr hq)

/-- C2: for every set of package names and every on-disk package tree,
every path in both collections returned by
`enumerate_stow_targets_for_pkgs` satisfies
`inside_home_guard(path) == true` — it is lexically equal to or under the
home directory. -/
theorem enumerate_inside_home (home : AbsPath) (stow : List (String × List SrcNode))
    (pkgs : List String) (p : AbsPath)
    (hp : p ∈ (enumerate_stow_targets_for_pkgs home stow pkgs).1 ∨
          p ∈ (enumerate_stow_targets_for_pkgs home stow pkgs).2) :
    inside_home_guard home p = true := by
  have hmain := collectPkg_fold_guard home stow (sortStrings (dedupKeepFirst pkgs))
    ([], []) (by intro q hq; simp at hq) p
  simp only [enumerate_stow_targets_for_pkgs, sortPaths] at hp
  rcases hp with hp | hp
  · exact hmain (Or.inl (mem_dedupKeepFirst.mp (mem_sortBy.mp hp)))
  · exact hmain (Or.inr (mem_dedupKeepFirst.mp (mem_sortBy.mp hp)))

/-- Witness for C2: a one-file package; its target `~/f` passes the
guard. -/
theorem enumerate_inside_home_witness :
    inside_home_guard ["h"] ["h", "f"] = true :=
  enumerate_inside_home ["h"] [("p", [.file "f"])] ["p"] ["h", "f"]
    (Or.inl (by simp [enumerate_stow_targets_for_pkgs, collectPkg, walkNodes, sortPaths,
      sortStrings, sortBy, insertBy, dedupKeepFirst, dedupAcc, inside_home_guard,
      List.isPrefixOf, lexLe, pathCodes, chCodes]))

/-- C9: the end-to-end `vim` fixture: a package holding `.vimrc` and
`.vim/colors/x.vim` enumerates to dir targets `~/.vim`, `~/.vim/colors`
(package root excluded) and file targets `~/.vimrc`,
`~/.vim/colors/x.vim`, each collection deduplicated and sorted by the
rendered path string. -/
theorem enumerate_vim_example :
    enumerate_stow_targets_for_pkgs ["home", "user"]
      [("vim", [.file ".vimrc", .dir ".vim" [.dir "colors" [.file "x.vim"]]])]
      ["vim"] =
    ([["home", "user", ".vim", "colors", "x.vim"], ["home", "user", ".vimrc"]],
     [["home", "user", ".vim"], ["home", "user", ".vim", "colors"]]) := by
  simp [enumerate_stow_targets_for_pkgs, collectPkg, walkNodes, sortPaths, sortStrings,
    sortBy, insertBy, dedupKeepFirst, dedupAcc, inside_home_guard, lexLe, pathCodes,
    chCodes, List.isPrefixOf]

/-! ## C6: deepest-first directory ordering -/

/-- The descending-depth order the worker sorts by is total and
transitive. -/
theorem dirs_sorted_pairwise (dirs : List AbsPath) :
    (dirs_sorted dirs).Pairwise
      (fun x y : AbsPath => decide (y.length ≤ x.length) = true) := by
  refine pairwise_sortBy ?_ ?_ dirs
  · intro x y h
    simp only [decide_eq_false_iff_not, not_le] at h
    simp [Nat.le_of_lt h]
  · intro x y z h1 h2
    simp only [decide_eq_true_eq] at h1 h2 ⊢
    omega

/-- C6: for every directory target list in any input order, the cleanup
executor's directory phase processes deepest-first (`dirs_sorted`, the
sort by path-separator count descending that the worker folds over):
whenever the loop reaches a directory, every strictly deeper child of it
in the target list has already been attempted — the child sits in the
prefix of `dirs_sorted` before that occurrence. -/
theorem dirs_sorted_deepest_first (dirs : List AbsPath) (parent child : AbsPath)
    (hc : child ∈ dirs) (hpre : parent <+: child) (hne : parent ≠ child)
    (pre post : List AbsPath) (hsplit : dirs_sorted dirs = pre ++ parent :: post) :
    child ∈ pre := by
  have hlen : parent.length < child.length := by
    obtain ⟨t, rfl⟩ := hpre
    rcases t with _ | ⟨x, t⟩
    · simp at hne
    · simp
  have hcl : child ∈ dirs_sorted dirs := mem_sortBy.mpr hc
  rw [hsplit] at hcl
  rcases List.mem_append.mp hcl with h | h
  · exact h
  · exfalso
    have hpw := dirs_sorted_pairwise dirs
    rw [hsplit] at hpw
    have hpw2 := (List.pairwise_append.mp hpw).2.1
    rw [List.pairwise_cons] at hpw2
    rcases List.mem_cons.mp h with rfl | h
    · exact hne rfl
    · have := hpw2.1 child h
      simp only [decide_eq_true_eq] at this
      omega

/-- Witness for C6 on the spec's own example `~/.config`,
`~/.config/app`, `~/.config/app/sub` given in scrambled input order:
when the loop reaches `~/.config/app`, the child `~/.config/app/sub`
has already been attempted. -/
theorem dirs_sorted_deepest_first_witness :
    ["u", ".config", "app", "sub"] ∈ [["u", ".config", "app", "sub"]] :=
  dirs_sorted_deepest_first
    [["u", ".config"], ["u", ".config", "app", "sub"], ["u", ".config", "app"]]
    ["u", ".config", "app"] ["u", ".config", "app", "sub"]
    (by decide) ⟨["sub"], by decide⟩ (by decide)
    [["u", ".config", "app", "sub"]] [["u", ".config"]] (by decide)

/-! ## C1: directory targets that are symlinks -/

/-- C1 counterexample: `~/.config/app` is a symlink resolving to
`/tmp/evil`, outside home.  The claim says force mode increments
`errors` by 1 and leaves the symlink untouched; the worker instead takes
the file/symlink branch (main.py line 262) before the force branch ever
runs, unlinks it, and counts `files_removed` — `errors` stays 0 and the
entry is gone. -/
theorem cleanup_symlink_outside_home_counterexample :
    (selective_cleanup_worker ["home", "u"] [] [["home", "u", ".config", "app"]]
        ⟨[(["home", "u", ".config", "app"], .symlink ["tmp", "evil"]),
          (["tmp", "evil"], .dir)], []⟩ false true).errors = 0 ∧
    (selective_cleanup_worker ["home", "u"] [] [["home", "u", ".config", "app"]]
        ⟨[(["home", "u", ".config", "app"], .symlink ["tmp", "evil"]),
          (["tmp", "evil"], .dir)], []⟩ false true).files_removed = 1 ∧
    (selective_cleanup_worker ["home", "u"] [] [["home", "u", ".config", "app"]]
        ⟨[(["home", "u", ".config", "app"], .symlink ["tmp", "evil"]),
          (["tmp", "evil"], .dir)], []⟩ false true).fs.lookup
        ["home", "u", ".config", "app"] = none := by
  decide

/-- C1 (amended): in force (non-dry) mode, a directory target that is a
symlink at execution time is unlinked and counted as `files_removed += 1`
with `errors` and `dirs_removed` untouched, *regardless of where the
symlink resolves* (inside or outside home) — it is never recursed into,
and no other filesystem entry is disturbed.  The refuse-rmtree `errors`
path applies only to non-symlink directories whose resolved path leaves
home. -/
theorem cleanup_force_symlink_dir_unlinks (home : AbsPath) (fs : FS) (d t : AbsPath)
    (hlk : fs.lookup d = some (.symlink t))
    (hg : inside_home_guard home d = true)
    (hf : fs.faulted d = false) :
    (selective_cleanup_worker home [] [d] fs false true).files_removed = 1 ∧
    (selective_cleanup_worker home [] [d] fs false true).errors = 0 ∧
    (selective_cleanup_worker home [] [d] fs false true).dirs_removed = 0 ∧
    (selective_cleanup_worker home [] [d] fs false true).fs.lookup d = none ∧
    ∀ q, q ≠ d → (selective_cleanup_worker home [] [d] fs false true).fs.lookup q = fs.lookup q := by
  have hsym : fs.isSymlink d = true := isSymlink_lookup_symlink hlk
  have hstep : selective_cleanup_worker home [] [d] fs false true =
      { fs := fs.removeEntry d,
        log := [⟨.success, .removedFileDirTarget, d⟩, ⟨.info, .plannedHeader, []⟩],
        files_removed := 1, dirs_removed := 0, skipped := 0, errors := 0 } := by
    rw [worker_single_dir]
    simp [procDir, hg, hsym, FS.unlink, hf]
  rw [hstep]
  refine ⟨rfl, rfl, rfl, lookup_removeEntry_self fs d, fun q hq => lookup_removeEntry_ne fs hq⟩

/-- Witness for C1 (amended): unlinking a symlink dir target pointing
inside home. -/
theorem cleanup_force_symlink_dir_unlinks_witness :
    (selective_cleanup_worker ["h"] [] [["h", "l"]]
        ⟨[(["h", "l"], .symlink ["h", "real"]), (["h", "real"], .dir)], []⟩ false true).files_removed = 1 ∧
    (selective_cleanup_worker ["h"] [] [["h", "l"]]
        ⟨[(["h", "l"], .symlink ["h", "real"]), (["h", "real"], .dir)], []⟩ false true).errors = 0 ∧
    (selective_cleanup_worker ["h"] [] [["h", "l"]]
        ⟨[(["h", "l"], .symlink ["h", "real"]), (["h", "real"], .dir)], []⟩ false true).dirs_removed = 0 ∧
    (selective_cleanup_worker ["h"] [] [["h", "l"]]
        ⟨[(["h", "l"], .symlink ["h", "real"]), (["h", "real"], .dir)], []⟩ false true).fs.lookup ["h", "l"] = none ∧
    ∀ q, q ≠ ["h", "l"] →
      (selective_cleanup_worker ["h"] [] [["h", "l"]]
          ⟨[(["h", "l"], .symlink ["h", "real"]), (["h", "real"], .dir)], []⟩ false true).fs.lookup q =
        FS.lookup ⟨[(["h", "l"], .symlink ["h", "real"]), (["h", "real"], .dir)], []⟩ q :=
  cleanup_force_symlink_dir_unlinks ["h"]
    ⟨[(["h", "l"], .symlink ["h", "real"]), (["h", "real"], .dir)], []⟩
    ["h", "l"] ["h", "real"] (by decide) (by decide) (by decide)

/-! ## C7: non-force handling of directories -/

/-- C7: in non-force (non-dry) mode, a non-empty directory target is
recorded as `skipped += 1` (with the force-mode hint log line), not as an
error; `dirs_removed` stays 0 and the directory still exists afterward.
Any other OS-level `rmdir` failure (modelled by the fault set) is
recorded as `errors += 1` instead. -/
theorem cleanup_nonforce_dir_skip_or_error (home : AbsPath) :
    (∀ (fs : FS) (d : AbsPath), fs.lookup d = some .dir → fs.nonEmptyDir d = true →
      inside_home_guard home d = true → fs.faulted d = false →
      (selective_cleanup_worker home [] [d] fs false false).skipped = 1 ∧
      (selective_cleanup_worker home [] [d] fs false false).dirs_removed = 0 ∧
      (selective_cleanup_worker home [] [d] fs false false).errors = 0 ∧
      (selective_cleanup_worker home [] [d] fs false false).log.countP
        (fun e => e.kind == LogKind.skipDirNotEmpty) = 1 ∧
      (selective_cleanup_worker home [] [d] fs false false).fs.lookup d = some .dir) ∧
    (∀ (fs : FS) (d : AbsPath), fs.lookup d = some .dir →
      inside_home_guard home d = true → fs.faulted d = true →
      (selective_cleanup_worker home [] [d] fs false false).errors = 1 ∧
      (selective_cleanup_worker home [] [d] fs false false).dirs_removed = 0 ∧
      (selective_cleanup_worker home [] [d] fs false false).skipped = 0) := by
  constructor
  · intro fs d hlk hne hg hf
    have hstep : selective_cleanup_worker home [] [d] fs false false =
        { fs := fs, log := [⟨.info, .skipDirNotEmpty, d⟩, ⟨.info, .plannedHeader, []⟩],
          files_removed := 0, dirs_removed := 0, skipped := 1, errors := 0 } := by
      rw [worker_single_dir]
      simp [procDir, hg, hf, hne, existsFollow_lookup_dir hlk, isFileFollow_lookup_dir hlk,
        isSymlink_lookup_dir hlk, FS.rmdir]
    rw [hstep]
    exact ⟨rfl, rfl, rfl, by simp [List.countP_cons, beq_iff_eq], hlk⟩
  · intro fs d hlk hg hf
    have hstep : selective_cleanup_worker home [] [d] fs false false =
        { fs := fs, log := [⟨.error, .failRmdir, d⟩, ⟨.info, .plannedHeader, []⟩],
          files_removed := 0, dirs_removed := 0, skipped := 0, errors := 1 } := by
      rw [worker_single_dir]
      simp [procDir, hg, hf, existsFollow_lookup_dir hlk, isFileFollow_lookup_dir hlk,
        isSymlink_lookup_dir hlk, FS.rmdir]
    rw [hstep]
    exact ⟨rfl, rfl, rfl⟩

/-- Witness for C7: `~/cfg` holding one file, run without force: skipped
and still present; the same directory with a fault on it: an error. -/
theorem cleanup_nonforce_dir_skip_or_error_witness :
    ((selective_cleanup_worker ["h"] [] [["h", "cfg"]]
        ⟨[(["h", "cfg"], .dir), (["h", "cfg", "x"], .file)], []⟩ false false).skipped = 1 ∧
      (selective_cleanup_worker ["h"] [] [["h", "cfg"]]
        ⟨[(["h", "cfg"], .dir), (["h", "cfg", "x"], .file)], []⟩ false false).dirs_removed = 0 ∧
      (selective_cleanup_worker ["h"] [] [["h", "cfg"]]
        ⟨[(["h", "cfg"], .dir), (["h", "cfg", "x"], .file)], []⟩ false false).errors = 0 ∧
      (selective_cleanup_worker ["h"] [] [["h", "cfg"]]
        ⟨[(["h", "cfg"], .dir), (["h", "cfg", "x"], .file)], []⟩ false false).log.countP
          (fun e => e.kind == LogKind.skipDirNotEmpty) = 1 ∧
      (selective_cleanup_worker ["h"] [] [["h", "cfg"]]
        ⟨[(["h", "cfg"], .dir), (["h", "cfg", "x"], .file)], []⟩ false false).fs.lookup
          ["h", "cfg"] = some .dir) ∧
    ((selective_cleanup_worker ["h"] [] [["h", "cfg"]]
        ⟨[(["h", "cfg"], .dir)], [["h", "cfg"]]⟩ false false).errors = 1 ∧
      (selective_cleanup_worker ["h"] [] [["h", "cfg"]]
        ⟨[(["h", "cfg"], .dir)], [["h", "cfg"]]⟩ false false).dirs_removed = 0 ∧
      (selective_cleanup_worker ["h"] [] [["h", "cfg"]]
        ⟨[(["h", "cfg"], .dir)], [["h", "cfg"]]⟩ false false).skipped = 0) :=
  ⟨(cleanup_nonforce_dir_skip_or_error ["h"]).1
      ⟨[(["h", "cfg"], .dir), (["h", "cfg", "x"], .file)], []⟩ ["h", "cfg"]
      (by decide) (by decide) (by decide) (by decide),
    (cleanup_nonforce_dir_skip_or_error ["h"]).2
      ⟨[(["h", "cfg"], .dir)], [["h", "cfg"]]⟩ ["h", "cfg"]
      (by decide) (by decide) (by decide)⟩

/-! ## C4, C5: dry-run frame and total contract -/

/-- The planned-action log lines (`plan: ...`). -/
def isPlanLine (e : LogE) : Bool :=
  match e.kind with
  | .planUnlink => true
  | .planUnlinkDirTarget => true
  | .planDir => true
  | _ => false

/-- The error-level log lines. -/
def isErrLine (e : LogE) : Bool :=
  match e.level with
  | .error => true
  | _ => false

/-- The targets the dry run logs a planned action for: inside home and
present (as entry or symlink) in the filesystem. -/
def planned (fs : FS) (home p : AbsPath) : Bool :=
  inside_home_guard home p && (fs.existsFollow p || fs.isSymlink p)

/-- Sum of the four outcome counters. -/
def counterTotal (st : CleanupState) : Nat :=
  st.files_removed + st.dirs_removed + st.skipped + st.errors

theorem procFile_dry (home : AbsPath) (st : CleanupState) (f : AbsPath) :
    (procFile home true st f).fs = st.fs ∧
    (procFile home true st f).log.countP isPlanLine =
      st.log.countP isPlanLine + (if planned st.fs home f then 1 else 0) := by
  unfold procFile planned
  rcases hg : inside_home_guard home f with _ | _
  · simp [hg, List.countP_cons, isPlanLine]
  · rcases he : st.fs.existsFollow f with _ | _ <;>
      rcases hs : st.fs.isSymlink f with _ | _ <;>
        simp [hg, he, hs, List.countP_cons, isPlanLine]

theorem procDir_dry (home : AbsPath) (force : Bool) (st : CleanupState) (d : AbsPath) :
    (procDir home true force st d).fs = st.fs ∧
    (procDir home true force st d).log.countP isPlanLine =
      st.log.countP isPlanLine + (if planned st.fs home d then 1 else 0) := by
  unfold procDir planned
  rcases hg : inside_home_guard home d with _ | _
  · simp [hg, List.countP_cons, isPlanLine]
  · rcases he : st.fs.existsFollow d with _ | _ <;>
      rcases hs : st.fs.isSymlink d with _ | _ <;>
        rcases hff : st.fs.isFileFollow d with _ | _ <;>
          simp [hg, he, hs, hff, List.countP_cons, isPlanLine]

theorem foldl_procFile_dry (home : AbsPath) (fs0 : FS) :
    ∀ (files : List AbsPath) (st : CleanupState), st.fs = fs0 →
      (files.foldl (procFile home true) st).fs = fs0 ∧
      (files.foldl (procFile home true) st).log.countP isPlanLine =
        st.log.countP isPlanLine + files.countP (planned fs0 home) := by
  intro files
  induction files with
  | nil =>
      intro st h
      simpa using h
  | cons f rest ih =>
      intro st hst
      obtain ⟨h1, h2⟩ := procFile_dry home st f
      rw [hst] at h2
      obtain ⟨h3, h4⟩ := ih (procFile home true st f) (h1.trans hst)
      refine ⟨h3, ?_⟩
      rw [List.foldl_cons, h4, h2, List.countP_cons]
      cases hp : planned fs0 home f
      all_goals simp [hp]
      all_goals omega

theorem foldl_procDir_dry (home : AbsPath) (force : Bool) (fs0 : FS) :
    ∀ (dirs : List AbsPath) (st : CleanupState), st.fs = fs0 →
      (dirs.foldl (procDir home true force) st).fs = fs0 ∧
      (dirs.foldl (procDir home true force) st).log.countP isPlanLine =
        st.log.countP isPlanLine + dirs.countP (planned fs0 home) := by
  intro dirs
  induction dirs with
  | nil =>
      intro st h
      simpa using h
  | cons d rest ih =>
      intro st hst
      obtain ⟨h1, h2⟩ := procDir_dry home force st d
      rw [hst] at h2
      obtain ⟨h3, h4⟩ := ih (procDir home true force st d) (h1.trans hst)
      refine ⟨h3, ?_⟩
      rw [List.foldl_cons, h4, h2, List.countP_cons]
      cases hp : planned fs0 home d
      all_goals simp [hp]
      all_goals omega

/-- C4: a dry run performs no filesystem mutation whatsoever — the final
filesystem is the input filesystem — while still emitting exactly one
planned-action log line per target that passes the guard and exists, and
the returned summary carries `dry_run = true`. -/
theorem cleanup_dry_run_no_mutation (home : AbsPath) (files dirs : List AbsPath)
    (fs : FS) (force : Bool) :
    (selective_cleanup_worker home files dirs fs true force).fs = fs ∧
    (selective_cleanup_worker home files dirs fs true force).log.countP isPlanLine =
      files.countP (planned fs home) + dirs.countP (planned fs home) ∧
    (cleanupSummary home files dirs fs true force).dry_run = true := by
  obtain ⟨h1, h2⟩ := foldl_procFile_dry home fs files
    { fs := fs, log := [⟨.info, .plannedHeader, []⟩],
      files_removed := 0, dirs_removed := 0, skipped := 0, errors := 0 } rfl
  obtain ⟨h3, h4⟩ := foldl_procDir_dry home force fs (dirs_sorted dirs) _ h1
  refine ⟨h3, ?_, rfl⟩
  show (selective_cleanup_worker home files dirs fs true force).log.countP isPlanLine = _
  rw [show (selective_cleanup_worker home files dirs fs true force).log =
      ((dirs_sorted dirs).foldl (procDir home true force)
        (files.foldl (procFile home true)
          { fs := fs, log := [⟨.info, .plannedHeader, []⟩],
            files_removed := 0, dirs_removed := 0, skipped := 0, errors := 0 })).log from rfl]
  rw [h4, h2]
  have hbase : ([⟨.info, .plannedHeader, []⟩] : List LogE).countP isPlanLine = 0 := by
    simp [List.countP_cons, isPlanLine]
  have hcnt : (dirs_sorted dirs).countP (planned fs home) = dirs.countP (planned fs home) := by
    unfold dirs_sorted
    exact countP_sortBy _ _
  rw [hbase, hcnt]
  omega

theorem procFile_err (home : AbsPath) (dry : Bool) (st : CleanupState) (f : AbsPath)
    (h : st.errors = st.log.countP isErrLine) :
    (procFile home dry st f).errors = (procFile home dry st f).log.countP isErrLine := by
  unfold procFile
  rcases hg : inside_home_guard home f with _ | _ <;>
    rcases he : st.fs.existsFollow f with _ | _ <;>
      rcases hs : st.fs.isSymlink f with _ | _ <;>
        cases dry <;>
          rcases hu : st.fs.unlink f with _ | _ <;>
            simp [hg, he, hs, hu, List.countP_cons, isErrLine, h]

theorem procDir_err (home : AbsPath) (dry force : Bool) (st : CleanupState) (d : AbsPath)
    (h : st.errors = st.log.countP isErrLine) :
    (procDir home dry force st d).errors = (procDir home dry force st d).log.countP isErrLine := by
  unfold procDir
  repeat' split
  all_goals simp [List.countP_cons, isErrLine, h]

theorem procFile_total (home : AbsPath) (st : CleanupState) (f : AbsPath) :
    counterTotal (procFile home false st f) = counterTotal st + 1 := by
  unfold procFile counterTotal
  repeat' split
  all_goals simp_all
  all_goals omega

theorem procDir_total (home : AbsPath) (force : Bool) (st : CleanupState) (d : AbsPath) :
    counterTotal (procDir home false force st d) = counterTotal st + 1 := by
  unfold procDir counterTotal
  repeat' split
  all_goals simp_all
  all_goals omega

theorem foldl_procFile_err (home : AbsPath) (dry : Bool) :
    ∀ (files : List AbsPath) (st : CleanupState), st.errors = st.log.countP isErrLine →
      (files.foldl (procFile home dry) st).errors =
        (files.foldl (procFile home dry) st).log.countP isErrLine := by
  intro files
  induction files with
  | nil => exact fun st h => h
  | cons f rest ih =>
      intro st h
      exact ih (procFile home dry st f) (procFile_err home dry st f h)

theorem foldl_procDir_err (home : AbsPath) (dry force : Bool) :
    ∀ (dirs : List AbsPath) (st : CleanupState), st.errors = st.log.countP isErrLine →
      (dirs.foldl (procDir home dry force) st).errors =
        (dirs.foldl (procDir home dry force) st).log.countP isErrLine := by
  intro dirs
  induction dirs with
  | nil => exact fun st h => h
  | cons d rest ih =>
      intro st h
      exact ih (procDir home dry force st d) (procDir_err home dry force st d h)

theorem foldl_procFile_total (home : AbsPath) :
    ∀ (files : List AbsPath) (st : CleanupState),
      counterTotal (files.foldl (procFile home false) st) =
        counterTotal st + files.length := by
  intro files
  induction files with
  | nil => simp
  | cons f rest ih =>
      intro st
      rw [List.foldl_cons, ih, procFile_total]
      simp [List.length_cons]
      omega

theorem foldl_procDir_total (home : AbsPath) (force : Bool) :
    ∀ (dirs : List AbsPath) (st : CleanupState),
      counterTotal (dirs.foldl (procDir home false force) st) =
        counterTotal st + dirs.length := by
  intro dirs
  induction dirs with
  | nil => simp
  | cons d rest ih =>
      intro st
      rw [List.foldl_cons, ih, procDir_total]
      simp [List.length_cons]
      omega

/-- C5: the executor's contract is total.  For every input it returns the
summary record with the four counters and the `dry_run` flag (third
conjunct, definitional); every per-item failure is caught and converted
into an `errors` increment paired with exactly one error-level log line —
the errors counter always equals the number of error log lines (first
conjunct); and in non-dry mode every single item, failed or not, is
accounted for by exactly one counter, so processing never stops early
(second conjunct). -/
theorem cleanup_executor_total_contract (home : AbsPath) (files dirs : List AbsPath)
    (fs : FS) (dry force : Bool) :
    (selective_cleanup_worker home files dirs fs dry force).errors =
      (selective_cleanup_worker home files dirs fs dry force).log.countP isErrLine ∧
    (dry = false →
      counterTotal (selective_cleanup_worker home files dirs fs dry force) =
        files.length + dirs.length) ∧
    cleanupSummary home files dirs fs dry force =
      { files_removed := (selective_cleanup_worker home files dirs fs dry force).files_removed,
        dirs_removed := (selective_cleanup_worker home files dirs fs dry force).dirs_removed,
        skipped := (selective_cleanup_worker home files dirs fs dry force).skipped,
        errors := (selective_cleanup_worker home files dirs fs dry force).errors,
        dry_run := dry } := by
  refine ⟨?_, ?_, rfl⟩
  · refine foldl_procDir_err home dry force (dirs_sorted dirs) _
      (foldl_procFile_err home dry files _ ?_)
    simp [List.countP_cons, isErrLine]
  · intro hdry
    subst hdry
    show counterTotal ((dirs_sorted dirs).foldl (procDir home false force)
      (files.foldl (procFile home false)
        { fs := fs, log := [⟨.info, .plannedHeader, []⟩],
          files_removed := 0, dirs_removed := 0, skipped := 0, errors := 0 })) = _
    rw [foldl_procDir_total, foldl_procFile_total]
    have hlen : (dirs_sorted dirs).length = dirs.length := by
      unfold dirs_sorted
      exact length_sortBy _
    rw [hlen]
    simp [counterTotal]

/-- Witness for C5 at a concrete non-dry input: one missing file target
and one missing directory target account for exactly two counter
increments. -/
theorem cleanup_executor_total_contract_witness :
    counterTotal (selective_cleanup_worker ["h"] [["h", "a"]] [["h", "b"]]
      ⟨[], []⟩ false false) = 2 := by
  have h := (cleanup_executor_total_contract ["h"] [["h", "a"]] [["h", "b"]]
    ⟨[], []⟩ false false).2.1 rfl
  simpa using h

/-! ## C3: confirmation dialog exactness -/

/-- C3: for every target count and key-event sequence, the confirmation
dialog returns `true` exactly when the operator submits (Enter) a digit
buffer that parses as an integer equal to the count; an Escape or a
buffer that is empty or parses to any other value returns `false`.  The
dialog is a pure function of the key events — it performs no filesystem
action in either case. -/
theorem confirm_remove_dialog_exact (total : Nat) (typed : List (Fin 10)) (keys : List Key) :
    confirm_remove_dialog total typed keys =
      (submission typed keys).map (acceptsSubmission total) := by
  induction keys generalizing typed with
  | nil => rfl
  | cons k ks ih =>
      cases k with
      | esc => simp [confirm_remove_dialog, submission, acceptsSubmission]
      | enter => simp [confirm_remove_dialog, submission, acceptsSubmission]
      | backspace => simpa [confirm_remove_dialog, submission] using ih typed.dropLast
      | digit d => simpa [confirm_remove_dialog, submission] using ih _
      | other => simpa [confirm_remove_dialog, submission] using ih typed

/-! ## C8: theme discovery priority -/

/-- Once a name is bound in the result map, later entries never rebind
it. -/
theorem themeLookup_addThemeEntry_some {result : List (String × AbsPath)} {name : String}
    {v : AbsPath} (sp : AbsPath) (entry : DirEnt)
    (h : themeLookup result name = some v) :
    themeLookup (addThemeEntry sp result entry) name = some v := by
  unfold addThemeEntry
  rcases hn : themeNameOf entry with _ | n
  · exact h
  · rcases ha : result.any (fun e => e.1 == n) with _ | _
    · simp only [ha, Bool.false_eq_true, if_false]
      unfold themeLookup at h ⊢
      rw [List.find?_append]
      rcases hf : result.find? (fun e => e.1 == name) with _ | e
      · rw [hf] at h
        cases h
      · rw [hf]
        rw [hf] at h
        simpa using h
    · simpa [ha] using h

/-- An entry that does not yield `name` cannot introduce a binding for
`name`. -/
theorem themeLookup_addThemeEntry_none {result : List (String × AbsPath)} {name : String}
    (sp : AbsPath) (entry : DirEnt)
    (h : themeLookup result name = none) (hn : themeNameOf entry ≠ some name) :
    themeLookup (addThemeEntry sp result entry) name = none := by
  unfold addThemeEntry
  rcases he : themeNameOf entry with _ | n
  · exact h
  · rcases ha : result.any (fun e => e.1 == n) with _ | _
    · simp only [ha, Bool.false_eq_true, if_false]
      unfold themeLookup at h ⊢
      rw [List.find?_append]
      rcases hf : result.find? (fun e => e.1 == name) with _ | e
      · have hne : n ≠ name := fun hc => hn (by rw [he, hc])
        simp [hf, hne]
      · rw [hf] at h
        cases h
    · simpa [ha] using h

/-- Folding any entry list preserves an existing binding. -/
theorem themeLookup_foldl_some (sp : AbsPath) (name : String) (v : AbsPath) :
    ∀ (es : List DirEnt) (result : List (String × AbsPath)),
      themeLookup result name = some v →
      themeLookup (es.foldl (addThemeEntry sp) result) name = some v := by
  intro es
  induction es with
  | nil => exact fun result h => h
  | cons e rest ih =>
      intro result h
      exact ih (addThemeEntry sp result e) (themeLookup_addThemeEntry_some sp e h)

/-- Folding a list of entries none of which yields `name` keeps `name`
unbound. -/
theorem themeLookup_foldl_none (sp : AbsPath) (name : String) :
    ∀ (es : List DirEnt) (result : List (String × AbsPath)),
      (∀ e ∈ es, themeNameOf e ≠ some name) →
      themeLookup result name = none →
      themeLookup (es.foldl (addThemeEntry sp) result) name = none := by
  intro es
  induction es with
  | nil => exact fun result _ h => h
  | cons e rest ih =>
      intro result hall h
      rw [List.foldl_cons]
      exact ih (addThemeEntry sp result e)
        (fun x hx => hall x (List.mem_cons_of_mem e hx))
        (themeLookup_addThemeEntry_none sp e h (hall e (List.mem_cons_self e rest)))

/-- If the map does not bind `name` yet and the entry list's first
offering of `name` resolves to `p`, the fold binds `name` to `p`. -/
theorem themeLookup_foldl_claims (sp : AbsPath) (name : String) :
    ∀ (es : List DirEnt) (result : List (String × AbsPath)) (p : AbsPath),
      themeLookup result name = none →
      (es.find? (fun e => themeNameOf e == some name)).map
        (fun e => sp ++ [e.entName]) = some p →
      themeLookup (es.foldl (addThemeEntry sp) result) name = some p := by
  intro es
  induction es with
  | nil =>
      intro result p _ hf
      simp at hf
  | cons e rest ih =>
      intro result p habs hf
      rcases hpred : (themeNameOf e == some name) with _ | _
      · rw [List.find?_cons, hpred] at hf
        have hnn : themeNameOf e ≠ some name := fun hc => by
          rw [hc] at hpred
          simp at hpred
        rw [List.foldl_cons]
        exact ih (addThemeEntry sp result e) p
          (themeLookup_addThemeEntry_none sp e habs hnn) hf
      · rw [List.find?_cons, hpred] at hf
        have hpe : sp ++ [e.entName] = p := by simpa using hf
        have hname : themeNameOf e = some name := by simpa using hpred
        have hfind : result.find? (fun x => x.1 == name) = none := by
          rcases hfind : result.find? (fun x => x.1 == name) with _ | x
          · exact hfind
          · unfold themeLookup at habs
            rw [hfind] at habs
            cases habs
        have hany : result.any (fun x => x.1 == name) = false := by
          rw [List.any_eq_false]
          exact List.find?_eq_none.mp hfind
        rw [List.foldl_cons]
        apply themeLookup_foldl_some
        unfold addThemeEntry
        simp only [hname, hany, Bool.false_eq_true, if_false]
        unfold themeLookup
        rw [List.find?_append, hfind]
        simp [hpe]

/-- Processing a source that does not offer `name` keeps `name`
unbound. -/
theorem themeLookup_addThemeSource_none {name : String} (src : ThemeSource)
    (hoff : offersTheme name src = none)
    (result : List (String × AbsPath)) (h : themeLookup result name = none) :
    themeLookup (addThemeSource result src) name = none := by
  unfold addThemeSource
  refine themeLookup_foldl_none src.path name (sortedEntries src) result ?_ h
  intro e he hc
  unfold offersTheme at hoff
  rcases hf : (sortedEntries src).find? (fun e => themeNameOf e == some name) with _ | x
  · have := List.find?_eq_none.mp hf e he
    rw [hc] at this
    simp at this
  · rw [hf] at hoff
    cases hoff

/-- Processing any further source preserves an existing binding. -/
theorem themeLookup_addThemeSource_some {name : String} {v : AbsPath} (src : ThemeSource)
    (result : List (String × AbsPath)) (h : themeLookup result name = some v) :
    themeLookup (addThemeSource result src) name = some v :=
  themeLookup_foldl_some src.path name v (sortedEntries src) result h

/-- If the map does not bind `name` and the source offers `name` at `p`,
processing the source binds `name` to `p`. -/
theorem themeLookup_addThemeSource_claims {name : String} {p : AbsPath}
    (src : ThemeSource) (hoff : offersTheme name src = some p)
    (result : List (String × AbsPath)) (habs : themeLookup result name = none) :
    themeLookup (addThemeSource result src) name = some p := by
  unfold addThemeSource
  unfold offersTheme at hoff
  exact themeLookup_foldl_claims src.path name (sortedEntries src) result p habs hoff

theorem themeLookup_foldlSources_none {name : String} :
    ∀ (srcs : List ThemeSource) (result : List (String × AbsPath)),
      (∀ s2 ∈ srcs, offersTheme name s2 = none) →
      themeLookup result name = none →
      themeLookup (srcs.foldl addThemeSource result) name = none := by
  intro srcs
  induction srcs with
  | nil => exact fun result _ h => h
  | cons s rest ih =>
      intro result hall h
      rw [List.foldl_cons]
      exact ih (addThemeSource result s)
        (fun x hx => hall x (List.mem_cons_of_mem s hx))
        (themeLookup_addThemeSource_none s (hall s (List.mem_cons_self s rest)) result h)

theorem themeLookup_foldlSources_some {name : String} {v : AbsPath} :
    ∀ (srcs : List ThemeSource) (result : List (String × AbsPath)),
      themeLookup result name = some v →
      themeLookup (srcs.foldl addThemeSource result) name = some v := by
  intro srcs
  induction srcs with
  | nil => exact fun result h => h
  | cons s rest ih =>
      intro result h
      rw [List.foldl_cons]
      exact ih (addThemeSource result s) (themeLookup_addThemeSource_some s result h)

/-- C8: theme discovery resolves every name to the entry from the
earliest (highest-priority) source that offers it: if no source before
`s` offers `name` and `s` offers it at `p`, then the discovered map
binds `name` to `p` — entries with the same name in later sources never
appear. -/
theorem discover_themes_priority (pre : List ThemeSource) (s : ThemeSource)
    (post : List ThemeSource) (name : String) (p : AbsPath)
    (hoff : offersTheme name s = some p)
    (hpre : ∀ s2 ∈ pre, offersTheme name s2 = none) :
    themeLookup (discover_themes (pre ++ s :: post)) name = some p := by
  unfold discover_themes
  rw [List.foldl_append, List.foldl_cons]
  have hnone : themeLookup (pre.foldl addThemeSource []) name = none :=
    themeLookup_foldlSources_none pre [] hpre rfl
  exact themeLookup_foldlSources_some post _
    (themeLookup_addThemeSource_claims s hoff _ hnone)

/-- Witness for C8 on the spec's `solarized` example: two sources both
holding a `solarized` entry; the map binds it to the first source's
path. -/
theorem discover_themes_priority_witness :
    themeLookup (discover_themes
      [⟨["repo", "themes"], [.dir "solarized"]⟩,
        ⟨["repo", "assets"], [.dir "solarized"]⟩]) "solarized" =
      some ["repo", "themes", "solarized"] :=
  discover_themes_priority [] ⟨["repo", "themes"], [.dir "solarized"]⟩
    [⟨["repo", "assets"], [.dir "solarized"]⟩] "solarized"
    ["repo", "themes", "solarized"] (by decide)
    (fun s2 hs2 => absurd hs2 (List.not_mem_nil s2))

/-- C10 counterexample: the claim says both shapes return a deduplicated
list, but the flat-list shape is returned as-is — `["git", "git"]` comes
back with its duplicate. -/
theorem package_plan_flat_not_dedup :
    package_plan (.list ["git", "git"]) = ["git", "git"] ∧
    ¬ (package_plan (.list ["git", "git"])).Nodup := by
  exact ⟨rfl, by decide⟩

/-- C10 (amended): `package_plan` accepts both shapes and returns a flat
list; the legacy nested shape is deduplicated keeping first occurrences
with the common packages first (the deduplicated commons are a prefix of
the result), while the flat shape is returned as-is (not deduplicated);
any other shape yields `[]`. -/
theorem package_plan_shapes :
    (∀ xs, package_plan (.list xs) = xs) ∧
    (∀ common arch, (package_plan (.dict common arch)).Nodup ∧
      dedupKeepFirst common <+: package_plan (.dict common arch) ∧
      (∀ x, x ∈ package_plan (.dict common arch) ↔ x ∈ common ++ arch)) ∧
    package_plan .other = [] := by
  refine ⟨fun xs => rfl, fun common arch => ⟨?_, ?_, ?_⟩, rfl⟩
  · exact nodup_dedupAcc [] _
  · obtain ⟨seen', hs⟩ := dedupAcc_append common [] arch
    exact ⟨dedupAcc seen' arch, by simpa [package_plan, dedupKeepFirst] using hs.symm⟩
  · intro x
    simp [package_plan, mem_dedupKeepFirst]

end Dotfiles
